import Mathlib

/-!
Shallow embedding of the `memory_db` flat-file key-value store
(src/src/lib.rs) and proofs about its specification claims.

The Rust module provides `load_db`, `save_db` and the internal
`delete_old_backups` over a directory layout
  <path>/memory.db        (live store file)
  <path>/memory.db.tmp    (transient temp file)
  <path>/backups/<ts>     (timestamped backup copies)

We model the filesystem state relevant to one store location explicitly
(live file contents, temp file contents, backups directory listing) plus
fault-injection flags for the failure modes the claims talk about
(unreadable live file, directory-listing failure, file-removal failure).
Strings are Lean `String`s; the string-splitting primitives used by the
Rust code (str::lines, str::split_once, str::trim) are re-implemented
below on the character list so that they can be reasoned about directly.
The generic serde_json codec for the value type T is abstracted as a pair
of functions (enc : T -> String, dec : String -> Except String T, the
error carrying serde's message); the chrono RFC3339 timestamp codec is
abstracted likewise as (fmtTs : TS -> String, parseTs : String ->
Option TS) over a linearly ordered timestamp type.
-/

namespace MemoryDB

/-- Whitespace as trimmed by `str::trim`, i.e. Rust's
`char::is_whitespace`: the characters with the Unicode White_Space
property — U+0009..U+000D, U+0020, U+0085, U+00A0, U+1680,
U+2000..U+200A, U+2028, U+2029, U+202F, U+205F and U+3000. -/
def isWs (c : Char) : Bool :=
  c.val = 0x09 || c.val = 0x0A || c.val = 0x0B || c.val = 0x0C ||
  c.val = 0x0D || c.val = 0x20 || c.val = 0x85 || c.val = 0xA0 ||
  c.val = 0x1680 || (0x2000 ≤ c.val && c.val ≤ 0x200A) ||
  c.val = 0x2028 || c.val = 0x2029 || c.val = 0x202F ||
  c.val = 0x205F || c.val = 0x3000

/-- Rust `str::trim` on a character list: drop whitespace from both ends. -/
def trimChars (l : List Char) : List Char :=
  ((l.dropWhile isWs).reverse.dropWhile isWs).reverse

/-- Rust `str::trim`. -/
def rustTrim (s : String) : String := ⟨trimChars s.data⟩

/-- Strip one trailing carriage return, as `str::lines` does at a line
ending of the form "\r\n". -/
def dropCR (l : List Char) : List Char :=
  if l.getLast? = some '\r' then l.dropLast else l

/-- Worker for `str::lines`: split at newline characters, accumulating the
current line in reverse.  A final segment without a trailing newline is
kept (unchanged: its trailing carriage return, if any, survives, exactly
as in Rust); a trailing empty segment is dropped. -/
def linesAux : List Char → List Char → List (List Char)
  | [], acc => if acc.isEmpty then [] else [acc.reverse]
  | c :: cs, acc =>
    if c = '\n' then dropCR acc.reverse :: linesAux cs []
    else linesAux cs (c :: acc)

/-- Rust `str::lines`. -/
def rustLines (s : String) : List String :=
  (linesAux s.data []).map String.mk

/-- Worker for `str::split_once('=')`. -/
def splitOnceAux : List Char → List Char → Option (String × String)
  | [], _ => none
  | c :: cs, acc =>
    if c = '=' then some (⟨acc.reverse⟩, ⟨cs⟩) else splitOnceAux cs (c :: acc)

/-- Rust `str::split_once('=')`: split at the first '=' if there is one. -/
def splitOnceEq (s : String) : Option (String × String) :=
  splitOnceAux s.data []

/-- The `DBError` type from src/src/lib.rs is a plain message string; the two
`From` impls tag the message with "Serde error: " resp. "IO error: ".
We keep the tag as a constructor and the wrapped cause as the payload. -/
inductive DBError where
  | serdeError (cause : String)
  | ioError (cause : String)
deriving DecidableEq, Repr

/-- Rust `HashMap<String, T>` modelled through its lookup semantics: an
association list where the most recent insertion shadows older bindings
for the same key.  `load_db`'s result is only ever observed through
lookups, so this captures `HashMap::insert`'s overwrite behaviour. -/
def hmInsert {T : Type} (db : List (String × T)) (k : String) (v : T) :
    List (String × T) :=
  (k, v) :: db

/-- Map lookup, as `HashMap::get` sees the map. -/
def hmFind {T : Type} (db : List (String × T)) (k : String) : Option T :=
  (db.find? (fun p => p.1 == k)).map (·.2)

/-- The `for line in contents.lines()` loop of `load_db`: split each line
at the first '=', decode the value fragment (trimmed), insert under the
trimmed key; a line without '=' is skipped; a decode failure aborts with
the serde error message wrapped in `DBError` (the `?` on
`serde_json::from_str` plus the `From<serde_json::Error>` impl).  The
decoder `dec` models `serde_json::from_str::<T>`, returning either a
value or an error message. -/
def loadLines {T : Type} (dec : String → Except String T) :
    List String → List (String × T) → Except DBError (List (String × T))
  | [], db => .ok db
  | line :: ls, db =>
    match splitOnceEq line with
    | none => loadLines dec ls db
    | some (k, v) =>
      match dec (rustTrim v) with
      | .error msg => .error (.serdeError msg)
      | .ok value => loadLines dec ls (hmInsert db (rustTrim k) value)

/-- Filesystem state of one store location, as far as the module touches
it, plus fault-injection flags for the failure modes the claims discuss.
`backups = none` means the backups directory does not exist; otherwise it
lists the directory entries (filename, file contents) in `read_dir`
order.  `liveUnreadable` injects a read failure (e.g. permissions) on an
existing live file; `readDirFails` injects a `read_dir` failure;
`removeFails` lists backup filenames whose `remove_file` fails. -/
structure FS where
  live : Option String
  tmp : Option String
  backups : Option (List (String × String))
  liveUnreadable : Bool
  readDirFails : Bool
  removeFails : List String
deriving DecidableEq, Repr

/-- Models `fs::read_to_string(get_db_path(path))`: error if the file is missing
or unreadable, otherwise its contents. -/
def readToString (st : FS) : Except String String :=
  match st.live with
  | none => .error "NotFound"
  | some c => if st.liveUnreadable then .error "PermissionDenied" else .ok c

/-- The function `load_db` (src/src/lib.rs lines 46-58).  Note the
`.unwrap_or_default()`: ANY read error is replaced by the empty string. -/
def load_db {T : Type} (dec : String → Except String T) (st : FS) :
    Except DBError (List (String × T)) :=
  let contents := match readToString st with
    | .ok c => c
    | .error _ => ""
  loadLines dec (rustLines contents) []

/-- The serialized form written by `save_db`'s write loop: one line
"key=<encoded value>\n" per map entry, in iteration order. -/
def serializeDB {T : Type} (enc : T → String) (M : List (String × T)) :
    String :=
  String.join (M.map (fun kv => kv.1 ++ "=" ++ enc kv.2 ++ "\n"))

/-- Result of running a stateful operation: normal return, early error
return carrying the state at the point of failure, or a panic (an
`unwrap` on `None`/`Err`). -/
inductive RunRes (ε : Type) where
  | ok (st : FS)
  | err (e : ε) (st : FS)
  | panic (st : FS)
deriving DecidableEq, Repr

/-- Insert into a sorted list, keeping ascending order (stable).  Models
the effect of `slice::sort` together with `sortTS`. -/
def insertSorted {TS : Type} [LinearOrder TS] (t : TS) :
    List TS → List TS
  | [] => [t]
  | u :: us => if t ≤ u then t :: u :: us else u :: insertSorted t us

/-- Models `file_names.sort()`: stable ascending sort (insertion sort, which is
extensionally the stable ascending sort `slice::sort` performs). -/
def sortTS {TS : Type} [LinearOrder TS] (l : List TS) : List TS :=
  l.foldr insertSorted []

/-- The parse loop of `delete_old_backups`:
`DateTime::parse_from_rfc3339(name).unwrap()` for every entry, in
directory order.  `none` signals the panic a failing parse causes. -/
def parseAll {TS : Type} (parseTs : String → Option TS) :
    List String → Option (List TS)
  | [] => some []
  | n :: ns =>
    match parseTs n with
    | none => none
    | some t => (parseAll parseTs ns).map (t :: ·)

/-- The constant `MAX_BACKUPS` (src/src/lib.rs line 11). -/
def MAX_BACKUPS : Nat := 10

/-- The removal loop of `delete_old_backups`: for each of the oldest
timestamps, remove the file named by its canonical rendering
(`entry.to_rfc3339()`).  `remove_file` fails (IO error) if no file of
that name exists or if removal is fault-injected; earlier removals
persist when a later one fails. -/
def removeBackups {TS : Type} (fmtTs : TS → String) :
    List TS → FS → RunRes String
  | [], st => .ok st
  | t :: ts, st =>
    let name := fmtTs t
    let entries := st.backups.getD []
    if entries.any (fun p => p.1 == name) && !(st.removeFails.contains name) then
      removeBackups fmtTs ts
        { st with backups := some (entries.filter (fun p => p.1 != name)) }
    else
      .err "remove_file failed" st

/-- The function `delete_old_backups` (src/src/lib.rs lines 92-119).  Returns
`std::io::Error` (modelled as a message string); the enclosing `save_db`
converts it to `DBError` via the `From` impl. -/
def delete_old_backups {TS : Type} [LinearOrder TS]
    (fmtTs : TS → String) (parseTs : String → Option TS) (st : FS) :
    RunRes String :=
  match st.backups with
  | none => .ok st
  | some entries =>
    if st.readDirFails then .err "read_dir failed" st
    else
      match parseAll parseTs (entries.map (·.1)) with
      | none => .panic st
      | some tss =>
        let sorted := sortTS tss
        removeBackups fmtTs (sorted.take (sorted.length - MAX_BACKUPS)) st

/-- Writing the new backup file via `fs::copy(&file_path, &backup_path)`:
directory entries are unique by name, so a same-named entry is
overwritten, otherwise the new entry is appended to the listing. -/
def backupInsert (entries : List (String × String)) (name content : String) :
    List (String × String) :=
  if entries.any (fun p => p.1 == name) then
    entries.map (fun p => if p.1 == name then (name, content) else p)
  else entries ++ [(name, content)]

/-- The body of `save_db` after the `delete_old_backups(path)?` call
(src/src/lib.rs lines 62-89).  Steps, in source order: ensure parent dir
(always succeeds in this model); create/truncate the temp file; create
the live file if absent; create the backups directory if absent; copy
the live file to a new backup named `fmtTs now` (fails if the live file
is unreadable); append the serialized map to the temp file; copy the
temp file over the live file; remove the temp file. -/
def save_db_write {T TS : Type} (enc : T → String) (fmtTs : TS → String)
    (now : TS) (M : List (String × T)) (s0 : FS) : RunRes DBError :=
  let s1 := { s0 with tmp := some "" }
  let s2 := if s1.live.isNone then { s1 with live := some "" } else s1
  let s3 := if s2.backups.isNone then { s2 with backups := some [] } else s2
  if s3.liveUnreadable then .err (.ioError "copy failed") s3
  else
    let oldLive := s3.live.getD ""
    let entries1 := backupInsert (s3.backups.getD []) (fmtTs now) oldLive
    let s4 := { s3 with backups := some entries1 }
    let s5 := { s4 with tmp := some ((s4.tmp.getD "") ++ serializeDB enc M) }
    let s6 := { s5 with live := s5.tmp }
    .ok { s6 with tmp := none }

/-- The function `save_db` (src/src/lib.rs lines 60-90), at one `now` timestamp:
backup retention first, then the write sequence. -/
def save_db {T TS : Type} [LinearOrder TS] (enc : T → String)
    (fmtTs : TS → String) (parseTs : String → Option TS)
    (now : TS) (M : List (String × T)) (st : FS) : RunRes DBError :=
  match delete_old_backups fmtTs parseTs st with
  | .err msg s => .err (.ioError msg) s
  | .panic s => .panic s
  | .ok s0 => save_db_write enc fmtTs now M s0

/-- A sequence of `save_db` calls on the same location (same map `M`),
at successive timestamps; stops at the first failure. -/
def saveAll {T TS : Type} [LinearOrder TS] (enc : T → String)
    (fmtTs : TS → String) (parseTs : String → Option TS)
    (M : List (String × T)) : List TS → FS → RunRes DBError
  | [], st => .ok st
  | t :: ts, st =>
    match save_db enc fmtTs parseTs t M st with
    | .ok s => saveAll enc fmtTs parseTs M ts s
    | .err e s => .err e s
    | .panic s => .panic s

/-- A filesystem location before anything was ever saved to it. -/
def freshFS : FS :=
  { live := none, tmp := none, backups := none,
    liveUnreadable := false, readDirFails := false, removeFails := [] }

/-- The filenames in the backups directory, in listing order. -/
def backupNames (st : FS) : Option (List String) :=
  st.backups.map (·.map (·.1))

/-- The state a `RunRes` carries, whichever way the run ended. -/
def resState {ε : Type} : RunRes ε → FS
  | .ok s => s
  | .err _ s => s
  | .panic s => s

/-- The (trimmed key, decoded value) pairs a list of lines contributes,
in file order; lines without '=' and lines whose fragment fails to
decode contribute nothing. -/
def parsedPairs {T : Type} (dec : String → Except String T)
    (ls : List String) : List (String × T) :=
  ls.filterMap (fun l =>
    (splitOnceEq l).bind (fun kv =>
      (dec (rustTrim kv.2)).toOption.map (fun v => (rustTrim kv.1, v))))

/-- Decidable equality for `Except`, used to evaluate concrete runs. -/
instance {ε α : Type} [DecidableEq ε] [DecidableEq α] :
    DecidableEq (Except ε α) := fun x y =>
  match x, y with
  | .error a, .error b =>
    if h : a = b then isTrue (by rw [h])
    else isFalse (by intro he; cases he; exact h rfl)
  | .error _, .ok _ => isFalse (by intro h; cases h)
  | .ok _, .error _ => isFalse (by intro h; cases h)
  | .ok a, .ok b =>
    if h : a = b then isTrue (by rw [h])
    else isFalse (by intro he; cases he; exact h rfl)

/-- Decimal digit-string parsing (a computable stand-in used by the
concrete codecs below). -/
def parseNatStr (s : String) : Option Nat :=
  if s.data ≠ [] ∧ s.data.all (·.isDigit) then
    some (s.data.foldl (fun n c => n * 10 + (c.toNat - '0'.toNat)) 0)
  else none

/-- A concrete value decoder for witnesses and counterexamples:
decimal naturals (a stand-in instantiation of `serde_json::from_str`
for a numeric value type). -/
def decNat (s : String) : Except String Nat :=
  match parseNatStr s with
  | some n => .ok n
  | none => .error ("invalid number: " ++ s)

/-- A concrete value encoder matching `decNat`. -/
def encNat (n : Nat) : String := toString n

/-- A concrete timestamp codec for witnesses and counterexamples:
decimal rendering of a natural number. -/
def natFmt (n : Nat) : String := toString n

/-- Concrete timestamp parsing matching `natFmt`. -/
def natParse (s : String) : Option Nat := parseNatStr s

/-- A second concrete timestamp codec (unary), whose round-trip property
is provable, used to instantiate universally-quantified codec
hypotheses in witnesses. -/
def unaryFmt (n : Nat) : String := ⟨List.replicate n 'a'⟩

/-- Parsing matching `unaryFmt`. -/
def unaryParse (s : String) : Option Nat :=
  if s.data.all (· == 'a') then some s.data.length else none

theorem unaryParse_unaryFmt (n : Nat) : unaryParse (unaryFmt n) = some n := by
  simp [unaryParse, unaryFmt, List.all_eq_true]

theorem rustLines_empty : rustLines "" = [] := rfl

/-! ### C6: missing store file loads as the empty map -/

/-- C6 (confirmed): if the store file does not exist, `load_db` succeeds
and returns the empty map. -/
theorem c6_missing_file_empty_map {T : Type} (dec : String → Except String T)
    (st : FS) (h : st.live = none) : load_db dec st = .ok [] := by
  simp [load_db, readToString, h, rustLines_empty, loadLines]

/-- Witness for C6 at a concrete state. -/
theorem c6_missing_file_empty_map_witness :
    load_db (T := Nat) decNat freshFS = .ok [] :=
  c6_missing_file_empty_map decNat freshFS rfl

/-! ### C3: existing-but-unreadable store file

The claim says `load_db` returns an IOError when the file exists but
cannot be read.  The code (line 47) is
`fs::read_to_string(get_db_path(path)).unwrap_or_default()`: EVERY read
error, including a permissions failure on an existing file, is replaced
by the empty string, so `load_db` succeeds with the empty map. -/

/-- C3 counterexample: a state whose live file exists (contents "a=1")
but is unreadable; `load_db` returns `ok` with the empty map, not an
IOError. -/
theorem c3_counterexample :
    load_db (T := Nat) decNat
      { live := some "a=1", tmp := none, backups := none,
        liveUnreadable := true, readDirFails := false, removeFails := [] }
      = .ok [] := rfl

/-- C3 amended (proved): `load_db` never surfaces a read failure: when
the store file exists but cannot be read, the error is swallowed by
`unwrap_or_default` and `load_db` succeeds with the empty map, exactly
as for a missing file. -/
theorem c3_amended_unreadable_is_empty {T : Type} (dec : String → Except String T)
    (st : FS) (c : String) (hl : st.live = some c)
    (hu : st.liveUnreadable = true) : load_db dec st = .ok [] := by
  simp [load_db, readToString, hl, hu, rustLines_empty, loadLines]

/-! ### String-level lemmas about the re-implemented Rust primitives -/

theorem splitOnceAux_of_no_eq (k v : List Char) :
    ∀ acc, '=' ∉ k →
      splitOnceAux (k ++ '=' :: v) acc = some (⟨acc.reverse ++ k⟩, ⟨v⟩) := by
  induction k with
  | nil => intro acc _; simp [splitOnceAux]
  | cons c cs ih =>
    intro acc h
    rw [List.mem_cons, not_or] at h
    simp only [List.cons_append, splitOnceAux,
      if_neg (fun hc : c = '=' => h.1 hc.symm)]
    exact (ih (c :: acc) h.2).trans (by simp [List.append_assoc])

/-- Splitting "key=value" at the first '=' recovers key and value when
the key contains no '='. -/
theorem splitOnceEq_append (k e : String) (h : '=' ∉ k.data) :
    splitOnceEq (k ++ "=" ++ e) = some (k, e) := by
  have hd : (k ++ "=" ++ e).data = k.data ++ '=' :: e.data := by
    simp [String.data_append]
  rw [splitOnceEq, hd, splitOnceAux_of_no_eq _ _ [] h]
  rfl

theorem dropCR_of_no_cr (l : List Char) (h : '\r' ∉ l) : dropCR l = l := by
  rw [dropCR, if_neg]
  intro hl
  exact h (List.mem_of_mem_getLast? hl)

theorem linesAux_append (xs rest : List Char) :
    ∀ acc, '\n' ∉ xs →
      linesAux (xs ++ '\n' :: rest) acc =
        dropCR (acc.reverse ++ xs) :: linesAux rest [] := by
  induction xs with
  | nil => intro acc _; simp [linesAux]
  | cons c cs ih =>
    intro acc h
    rw [List.mem_cons, not_or] at h
    simp only [List.cons_append, linesAux,
      if_neg (fun hc : c = '\n' => h.1 hc.symm)]
    exact (ih (c :: acc) h.2).trans (by simp [List.append_assoc])

theorem string_foldl_append (l : List String) :
    ∀ a : String, l.foldl (· ++ ·) a = a ++ l.foldl (· ++ ·) "" := by
  induction l with
  | nil => intro a; simp [String.append_empty]
  | cons b l ih =>
    intro a
    simp only [List.foldl_cons]
    rw [ih (a ++ b), ih ("" ++ b), String.empty_append, String.append_assoc]

theorem string_join_cons (a : String) (l : List String) :
    String.join (a :: l) = a ++ String.join l := by
  simp only [String.join, List.foldl_cons]
  rw [string_foldl_append l ("" ++ a), String.empty_append]

theorem serializeDB_cons {T : Type} (enc : T → String) (kv : String × T)
    (M : List (String × T)) :
    serializeDB enc (kv :: M) =
      (kv.1 ++ "=" ++ enc kv.2 ++ "\n") ++ serializeDB enc M := by
  simp [serializeDB, string_join_cons]

/-- One serialized line, followed by anything, is split off intact by
`str::lines` when neither key nor encoded value contains a newline or a
carriage return. -/
theorem rustLines_cons_line (k e rest : String)
    (hkn : '\n' ∉ k.data) (hkr : '\r' ∉ k.data)
    (hen : '\n' ∉ e.data) (her : '\r' ∉ e.data) :
    rustLines ((k ++ "=" ++ e ++ "\n") ++ rest) =
      (k ++ "=" ++ e) :: rustLines rest := by
  have hd : ((k ++ "=" ++ e ++ "\n") ++ rest).data
      = (k.data ++ '=' :: e.data) ++ '\n' :: rest.data := by
    simp [String.data_append]
  have hnn : '\n' ∉ k.data ++ '=' :: e.data := by
    simp only [List.mem_append, List.mem_cons]
    rintro (h | h | h)
    · exact hkn h
    · exact absurd h.symm (by decide)
    · exact hen h
  have hnr : '\r' ∉ k.data ++ '=' :: e.data := by
    simp only [List.mem_append, List.mem_cons]
    rintro (h | h | h)
    · exact hkr h
    · exact absurd h.symm (by decide)
    · exact her h
  rw [rustLines, hd, linesAux_append _ _ [] hnn]
  rw [show (([] : List Char).reverse ++ (k.data ++ '=' :: e.data))
      = k.data ++ '=' :: e.data from rfl]
  rw [dropCR_of_no_cr _ hnr, List.map_cons]
  exact congrArg (· :: rustLines rest)
    (String.ext (by simp [String.data_append]))

/-! ### Characterization of the `load_db` line loop -/

theorem loadLines_cons_skip {T : Type} (dec : String → Except String T)
    (l : String) (ls : List String) (db0 : List (String × T))
    (hsp : splitOnceEq l = none) :
    loadLines dec (l :: ls) db0 = loadLines dec ls db0 := by
  rw [loadLines, hsp]

theorem loadLines_cons_fail {T : Type} (dec : String → Except String T)
    (l : String) (ls : List String) (db0 : List (String × T))
    (k vfrag m : String) (hsp : splitOnceEq l = some (k, vfrag))
    (hv : dec (rustTrim vfrag) = .error m) :
    loadLines dec (l :: ls) db0 = .error (.serdeError m) := by
  rw [loadLines, hsp]
  simp only [hv]

theorem loadLines_cons_insert {T : Type} (dec : String → Except String T)
    (l : String) (ls : List String) (db0 : List (String × T))
    (k vfrag : String) (v : T) (hsp : splitOnceEq l = some (k, vfrag))
    (hv : dec (rustTrim vfrag) = .ok v) :
    loadLines dec (l :: ls) db0 =
      loadLines dec ls (hmInsert db0 (rustTrim k) v) := by
  rw [loadLines, hsp]
  simp only [hv]

/-- When every '='-line's fragment decodes, `loadLines` succeeds and the
accumulated map is the parsed pairs, most recent binding first. -/
theorem loadLines_ok {T : Type} (dec : String → Except String T)
    (ls : List String)
    (h : ∀ l ∈ ls, ∀ kv, splitOnceEq l = some kv →
      ∃ v, dec (rustTrim kv.2) = .ok v) :
    ∀ db0, loadLines dec ls db0 = .ok ((parsedPairs dec ls).reverse ++ db0) := by
  induction ls with
  | nil => intro db0; simp [loadLines, parsedPairs]
  | cons l ls ih =>
    intro db0
    have hl := h l (List.mem_cons_self l ls)
    have hls : ∀ l' ∈ ls, ∀ kv, splitOnceEq l' = some kv →
        ∃ v, dec (rustTrim kv.2) = .ok v :=
      fun l' hm => h l' (List.mem_cons_of_mem l hm)
    cases hsp : splitOnceEq l with
    | none =>
      rw [loadLines_cons_skip dec l ls db0 hsp, ih hls db0]
      simp [parsedPairs, List.filterMap_cons, hsp]
    | some kv =>
      obtain ⟨v, hv⟩ := hl kv hsp
      obtain ⟨k, vfrag⟩ := kv
      rw [loadLines_cons_insert dec l ls db0 k vfrag v hsp hv,
        ih hls (hmInsert db0 (rustTrim k) v)]
      simp [parsedPairs, List.filterMap_cons, hsp, hv, hmInsert,
        Except.toOption, List.append_assoc]

/-- The loop `loadLines` fails exactly when some '='-line's fragment fails to
decode, and the failure is always a serde error. -/
theorem loadLines_error_iff {T : Type} (dec : String → Except String T)
    (ls : List String) : ∀ db0,
    ((∃ e, loadLines dec ls db0 = .error e) ↔
      ∃ l ∈ ls, ∃ kv, splitOnceEq l = some kv ∧
        ∃ m, dec (rustTrim kv.2) = .error m) ∧
    (∀ e, loadLines dec ls db0 = .error e → ∃ m, e = .serdeError m) := by
  induction ls with
  | nil =>
    intro db0
    constructor
    · simp [loadLines]
    · intro e he; simp [loadLines] at he
  | cons l ls ih =>
    intro db0
    cases hsp : splitOnceEq l with
    | none =>
      rw [loadLines_cons_skip dec l ls db0 hsp]
      constructor
      · rw [(ih db0).1]
        constructor
        · intro ⟨l', hm, hrest⟩; exact ⟨l', List.mem_cons_of_mem l hm, hrest⟩
        · rintro ⟨l', hm, kv, hkv, hrest⟩
          rcases List.mem_cons.mp hm with rfl | hm'
          · rw [hsp] at hkv; cases hkv
          · exact ⟨l', hm', kv, hkv, hrest⟩
      · exact (ih db0).2
    | some kv =>
      obtain ⟨k, vfrag⟩ := kv
      cases hv : dec (rustTrim vfrag) with
      | error m =>
        rw [loadLines_cons_fail dec l ls db0 k vfrag m hsp hv]
        constructor
        · constructor
          · intro _
            exact ⟨l, List.mem_cons_self l ls, (k, vfrag), hsp, m, hv⟩
          · intro _; exact ⟨DBError.serdeError m, rfl⟩
        · intro e he
          cases he
          exact ⟨m, rfl⟩
      | ok v =>
        rw [loadLines_cons_insert dec l ls db0 k vfrag v hsp hv]
        constructor
        · rw [(ih (hmInsert db0 (rustTrim k) v)).1]
          constructor
          · intro ⟨l', hm, hrest⟩; exact ⟨l', List.mem_cons_of_mem l hm, hrest⟩
          · rintro ⟨l', hm, kv', hkv, m, hdec⟩
            rcases List.mem_cons.mp hm with rfl | hm'
            · rw [hsp] at hkv; cases hkv; rw [hv] at hdec; cases hdec
            · exact ⟨l', hm', kv', hkv, m, hdec⟩
        · exact (ih (hmInsert db0 (rustTrim k) v)).2

/-- Witness for the amended C3 at a concrete state. -/
theorem c3_amended_unreadable_is_empty_witness :
    load_db (T := Nat) decNat
      { live := some "k=7", tmp := none, backups := none,
        liveUnreadable := true, readDirFails := false, removeFails := [] }
      = .ok [] :=
  c3_amended_unreadable_is_empty decNat _ "k=7" rfl rfl

/-! ### The save path: pruning touches only the backups directory -/

/-- The removal loop mutates nothing but the backups listing. -/
theorem removeBackups_preserves {TS : Type} (fmtTs : TS → String) :
    ∀ (ts : List TS) (st : FS),
      (resState (removeBackups fmtTs ts st)).live = st.live ∧
      (resState (removeBackups fmtTs ts st)).tmp = st.tmp ∧
      (resState (removeBackups fmtTs ts st)).liveUnreadable = st.liveUnreadable ∧
      (resState (removeBackups fmtTs ts st)).readDirFails = st.readDirFails ∧
      (resState (removeBackups fmtTs ts st)).removeFails = st.removeFails := by
  intro ts
  induction ts with
  | nil => intro st; exact ⟨rfl, rfl, rfl, rfl, rfl⟩
  | cons t ts ih =>
    intro st
    rw [removeBackups]
    split
    · exact ih _
    · exact ⟨rfl, rfl, rfl, rfl, rfl⟩

/-- Backup retention mutates nothing but the backups listing. -/
theorem delete_old_backups_preserves {TS : Type} [LinearOrder TS]
    (fmtTs : TS → String) (parseTs : String → Option TS) (st : FS) :
    (resState (delete_old_backups fmtTs parseTs st)).live = st.live ∧
    (resState (delete_old_backups fmtTs parseTs st)).tmp = st.tmp ∧
    (resState (delete_old_backups fmtTs parseTs st)).liveUnreadable
      = st.liveUnreadable ∧
    (resState (delete_old_backups fmtTs parseTs st)).readDirFails
      = st.readDirFails ∧
    (resState (delete_old_backups fmtTs parseTs st)).removeFails
      = st.removeFails := by
  rcases hb : st.backups with _ | entries
  · rw [delete_old_backups, hb]
    exact ⟨rfl, rfl, rfl, rfl, rfl⟩
  · cases hrd : st.readDirFails with
    | true => simp [delete_old_backups, hb, hrd, resState]
    | false =>
      cases hp : parseAll parseTs (entries.map (·.1)) with
      | none => simp [delete_old_backups, hb, hrd, hp, resState]
      | some tss =>
        simp only [delete_old_backups, hb, hrd, hp, Bool.false_eq_true,
          if_false]
        have h := removeBackups_preserves fmtTs
          (List.take ((sortTS tss).length - MAX_BACKUPS) (sortTS tss)) st
        rw [hrd] at h
        exact h

/-- The write body of `save_db` on a readable live file: the live file
ends up holding exactly the serialized map, the temp file is gone, and
the backup of the pre-save live contents has been filed under the
current timestamp. -/
theorem save_db_write_ok {T TS : Type} (enc : T → String)
    (fmtTs : TS → String) (now : TS) (M : List (String × T)) (s0 : FS)
    (h : s0.liveUnreadable = false) :
    save_db_write enc fmtTs now M s0 =
      .ok { live := some (serializeDB enc M), tmp := none,
            backups := some (backupInsert (s0.backups.getD [])
              (fmtTs now) (s0.live.getD "")),
            liveUnreadable := false, readDirFails := s0.readDirFails,
            removeFails := s0.removeFails } := by
  obtain ⟨live, tmp, backups, lu, rd, rf⟩ := s0
  simp only at h
  subst h
  cases live <;> cases backups <;>
    simp [save_db_write, Option.getD, String.empty_append]

/-- The write body on an unreadable live file fails at the
`fs::copy(&file_path, &backup_path)` step. -/
theorem save_db_write_unreadable {T TS : Type} (enc : T → String)
    (fmtTs : TS → String) (now : TS) (M : List (String × T)) (s0 : FS)
    (h : s0.liveUnreadable = true) :
    ∃ s, save_db_write enc fmtTs now M s0 = .err (.ioError "copy failed") s := by
  obtain ⟨live, tmp, backups, lu, rd, rf⟩ := s0
  simp only at h
  subst h
  cases live <;> cases backups <;> simp [save_db_write]

/-- The new backup entry is present after `backupInsert`. -/
theorem mem_backupInsert (entries : List (String × String))
    (name content : String) :
    (name, content) ∈ backupInsert entries name content := by
  rw [backupInsert]
  split
  · next hany =>
    rw [List.any_eq_true] at hany
    obtain ⟨p, hp, hpe⟩ := hany
    refine List.mem_map.mpr ⟨p, hp, ?_⟩
    rw [if_pos hpe]
  · exact List.mem_append_right _ (List.mem_singleton.mpr rfl)

/-- What a successful `save_db` guarantees: the caller's state had a
readable live file, the resulting live file holds exactly the serialized
map, the temp file is gone, and a backup holding the pre-save live
contents (empty if the live file did not exist) is in the backups
directory under the current timestamp's name. -/
theorem save_db_ok_spec {T TS : Type} [LinearOrder TS] (enc : T → String)
    (fmtTs : TS → String) (parseTs : String → Option TS) (now : TS)
    (M : List (String × T)) (st st' : FS)
    (h : save_db enc fmtTs parseTs now M st = .ok st') :
    st.liveUnreadable = false ∧
    st'.live = some (serializeDB enc M) ∧
    st'.tmp = none ∧
    st'.liveUnreadable = false ∧
    ∃ es, st'.backups = some es ∧ (fmtTs now, st.live.getD "") ∈ es := by
  unfold save_db at h
  cases hpr : delete_old_backups fmtTs parseTs st with
  | err m s => rw [hpr] at h; cases h
  | panic s => rw [hpr] at h; cases h
  | ok s0 =>
    rw [hpr] at h
    change save_db_write enc fmtTs now M s0 = RunRes.ok st' at h
    have hpres := delete_old_backups_preserves fmtTs parseTs st
    rw [hpr] at hpres
    obtain ⟨hl, ht, hu, hrd, hrf⟩ := hpres
    cases hlu : s0.liveUnreadable with
    | true =>
      obtain ⟨s, hs⟩ := save_db_write_unreadable enc fmtTs now M s0 hlu
      rw [hs] at h
      cases h
    | false =>
      rw [save_db_write_ok enc fmtTs now M s0 hlu] at h
      cases h
      refine ⟨?_, rfl, rfl, rfl, ⟨_, rfl, ?_⟩⟩
      · rw [← hu]; exact hlu
      · rw [show (resState (RunRes.ok (ε := String) s0)).live = s0.live from rfl]
          at hl
        rw [← hl]
        exact mem_backupInsert _ _ _

/-- Serialization followed by `str::lines` yields exactly one line per
map entry, provided keys and encoded values are free of newline and
carriage-return characters. -/
theorem rustLines_serializeDB {T : Type} (enc : T → String) :
    ∀ M : List (String × T),
      (∀ kv ∈ M, '\n' ∉ kv.1.data ∧ '\r' ∉ kv.1.data) →
      (∀ kv ∈ M, '\n' ∉ (enc kv.2).data ∧ '\r' ∉ (enc kv.2).data) →
      rustLines (serializeDB enc M) =
        M.map (fun kv => kv.1 ++ "=" ++ enc kv.2) := by
  intro M
  induction M with
  | nil => intro _ _; rfl
  | cons kv M ih =>
    intro hk hv
    have hk0 := hk kv (List.mem_cons_self kv M)
    have hv0 := hv kv (List.mem_cons_self kv M)
    rw [serializeDB_cons,
      rustLines_cons_line kv.1 (enc kv.2) (serializeDB enc M)
        hk0.1 hk0.2 hv0.1 hv0.2,
      ih (fun p hp => hk p (List.mem_cons_of_mem kv hp))
        (fun p hp => hv p (List.mem_cons_of_mem kv hp)),
      List.map_cons]

/-- Parsing back the serialized lines recovers the map entries when keys
are '='-free and trim-invariant and encoded values are trim-invariant
and decodable. -/
theorem parsedPairs_serialized {T : Type} (enc : T → String)
    (dec : String → Except String T) :
    ∀ M : List (String × T),
      (∀ kv ∈ M, '=' ∉ kv.1.data ∧ rustTrim kv.1 = kv.1) →
      (∀ kv ∈ M, rustTrim (enc kv.2) = enc kv.2 ∧ dec (enc kv.2) = .ok kv.2) →
      parsedPairs dec (M.map (fun kv => kv.1 ++ "=" ++ enc kv.2)) = M := by
  intro M
  induction M with
  | nil => intro _ _; rfl
  | cons kv M ih =>
    intro hk hv
    have hk0 := hk kv (List.mem_cons_self kv M)
    have hv0 := hv kv (List.mem_cons_self kv M)
    obtain ⟨k, v⟩ := kv
    simp only [List.map_cons, parsedPairs, List.filterMap_cons,
      splitOnceEq_append k (enc v) hk0.1, Option.some_bind]
    rw [show rustTrim (enc v) = enc v from hv0.1, hv0.2]
    simp only [Except.toOption, Option.map_some]
    rw [show rustTrim k = k from hk0.2]
    exact congrArg (List.cons (k, v))
      (ih (fun p hp => hk p (List.mem_cons_of_mem (k, v) hp))
        (fun p hp => hv p (List.mem_cons_of_mem (k, v) hp)))

/-- With duplicate-free keys, lookup in the reversed association list
agrees with lookup in the list itself. -/
theorem hmFind_reverse_of_nodup {T : Type} :
    ∀ (M : List (String × T)), (M.map Prod.fst).Nodup →
      ∀ k, hmFind M.reverse k = hmFind M k := by
  intro M
  induction M with
  | nil => intro _ _; rfl
  | cons p M ih =>
    intro h k
    rw [List.map_cons, List.nodup_cons] at h
    rw [List.reverse_cons, hmFind, List.find?_append]
    by_cases hk : p.1 = k
    · have hnone : M.reverse.find? (fun q => q.1 == k) = none := by
        rw [List.find?_eq_none]
        intro q hq hbeq
        rw [beq_iff_eq] at hbeq
        exact h.1 (hk ▸ hbeq ▸
          List.mem_map_of_mem Prod.fst (List.mem_reverse.mp hq))
      rw [hnone, Option.none_or]
      simp [hmFind, List.find?, hk]
    · have hfalse : (p.1 == k) = false := beq_eq_false_iff_ne.mpr hk
      have hsingle : [p].find? (fun q => q.1 == k) = none := by
        simp [List.find?, hfalse]
      rw [hsingle, Option.or_none]
      exact (ih h.2 k).trans
        ((show hmFind (p :: M) k = hmFind M k by
          simp [hmFind, List.find?, hfalse]).symm)

/-! ### C5: a successful save writes the serialized map and files a
backup of the pre-save live contents -/

/-- C5 (confirmed): on successful return of `save_db`, the live file
holds exactly one line "key=<encoded value>\n" per map entry (shown both
as the serialized string and, line by line, through `str::lines`), and a
backup holding the pre-save live contents is in the backups directory. -/
theorem c5_save_serializes_and_backs_up {T TS : Type} [LinearOrder TS]
    (enc : T → String) (fmtTs : TS → String) (parseTs : String → Option TS)
    (now : TS) (M : List (String × T)) (st st' : FS)
    (hsave : save_db enc fmtTs parseTs now M st = .ok st')
    (hk : ∀ kv ∈ M, '\n' ∉ kv.1.data ∧ '\r' ∉ kv.1.data)
    (hv : ∀ kv ∈ M, '\n' ∉ (enc kv.2).data ∧ '\r' ∉ (enc kv.2).data) :
    st'.live = some (serializeDB enc M) ∧
    rustLines (serializeDB enc M) =
      M.map (fun kv => kv.1 ++ "=" ++ enc kv.2) ∧
    ∃ es, st'.backups = some es ∧ (fmtTs now, st.live.getD "") ∈ es := by
  obtain ⟨-, hlive, -, -, hbak⟩ :=
    save_db_ok_spec enc fmtTs parseTs now M st st' hsave
  exact ⟨hlive, rustLines_serializeDB enc M hk hv, hbak⟩

/-- Witness for C5: one concrete save on a fresh location. -/
theorem c5_save_serializes_and_backs_up_witness :
    ∃ st' : FS,
      save_db encNat natFmt natParse 7 [("a", 1), ("b", 2)] freshFS
        = .ok st' ∧
      (st'.live = some (serializeDB encNat [("a", 1), ("b", 2)]) ∧
        rustLines (serializeDB encNat [("a", 1), ("b", 2)]) =
          [("a", 1), ("b", 2)].map (fun kv => kv.1 ++ "=" ++ encNat kv.2) ∧
        ∃ es, st'.backups = some es ∧ (natFmt 7, freshFS.live.getD "") ∈ es) :=
  ⟨_, rfl,
    c5_save_serializes_and_backs_up encNat natFmt natParse 7
      [("a", 1), ("b", 2)] freshFS _ rfl (by decide) (by decide)⟩

/-! ### C4: save/load round trip

The claim's only proviso is that no key contains a literal '='.  That is
not enough: `load_db` trims keys, so a key with leading or trailing
whitespace (which `save_db` happily writes) comes back changed.  The
counterexample saves the key " a" and loads back "a". -/

/-- C4 counterexample: the key " a" contains no '=', yet save-then-load
does not return the original map: the loaded map binds "a", not " a". -/
theorem c4_counterexample :
    ('=' ∉ (" a" : String).data) ∧
    save_db encNat natFmt natParse 1 [(" a", 5)] freshFS =
      .ok { live := some " a=5\n", tmp := none, backups := some [("1", "")],
            liveUnreadable := false, readDirFails := false,
            removeFails := [] } ∧
    load_db decNat
      { live := some " a=5\n", tmp := none, backups := some [("1", "")],
        liveUnreadable := false, readDirFails := false, removeFails := [] }
      = .ok [("a", 5)] ∧
    hmFind [(("a" : String), (5 : Nat))] " a" = none ∧
    hmFind [((" a" : String), (5 : Nat))] " a" = some 5 :=
  ⟨by decide, by decide, by decide, by decide, by decide⟩

/-- C4 amended (proved): the round trip holds under the extra provisos
the code's trimming and line-splitting force: every key is '='-free,
newline-free and trim-invariant, and every encoded value is
newline-free, trim-invariant and decodes back to its value (serde_json
encodings satisfy the latter).  Then a successful save followed by a
load returns a map with the same bindings. -/
theorem c4_amended_round_trip {T TS : Type} [LinearOrder TS]
    (enc : T → String) (dec : String → Except String T)
    (fmtTs : TS → String) (parseTs : String → Option TS) (now : TS)
    (M : List (String × T)) (st st' : FS)
    (hsave : save_db enc fmtTs parseTs now M st = .ok st')
    (hkeys : ∀ kv ∈ M, '=' ∉ kv.1.data ∧ '\n' ∉ kv.1.data ∧
      '\r' ∉ kv.1.data ∧ rustTrim kv.1 = kv.1)
    (hvals : ∀ kv ∈ M, '\n' ∉ (enc kv.2).data ∧ '\r' ∉ (enc kv.2).data ∧
      rustTrim (enc kv.2) = enc kv.2 ∧ dec (enc kv.2) = .ok kv.2)
    (hnodup : (M.map Prod.fst).Nodup) :
    ∃ db, load_db dec st' = .ok db ∧ ∀ k, hmFind db k = hmFind M k := by
  obtain ⟨-, hlive, -, hlu, -⟩ :=
    save_db_ok_spec enc fmtTs parseTs now M st st' hsave
  have hread : load_db dec st' =
      loadLines dec (rustLines (serializeDB enc M)) [] := by
    simp [load_db, readToString, hlive, hlu]
  rw [rustLines_serializeDB enc M
    (fun kv hm => ⟨(hkeys kv hm).2.1, (hkeys kv hm).2.2.1⟩)
    (fun kv hm => ⟨(hvals kv hm).1, (hvals kv hm).2.1⟩)] at hread
  have hok : ∀ l ∈ M.map (fun kv => kv.1 ++ "=" ++ enc kv.2),
      ∀ kv', splitOnceEq l = some kv' →
        ∃ v, dec (rustTrim kv'.2) = .ok v := by
    intro l hl kv' hsp
    obtain ⟨kv, hkv, rfl⟩ := List.mem_map.mp hl
    rw [splitOnceEq_append _ _ (hkeys kv hkv).1] at hsp
    cases hsp
    exact ⟨kv.2, by rw [(hvals kv hkv).2.2.1, (hvals kv hkv).2.2.2]⟩
  rw [loadLines_ok dec _ hok []] at hread
  rw [parsedPairs_serialized enc dec M
    (fun kv hm => ⟨(hkeys kv hm).1, (hkeys kv hm).2.2.2⟩)
    (fun kv hm => ⟨(hvals kv hm).2.2.1, (hvals kv hm).2.2.2⟩)] at hread
  refine ⟨M.reverse ++ [], hread, ?_⟩
  intro k
  rw [List.append_nil]
  exact hmFind_reverse_of_nodup M hnodup k

/-- Witness for the amended C4: a concrete two-entry round trip. -/
theorem c4_amended_round_trip_witness :
    ∃ db, load_db decNat
        { live := some "a=1\nb=2\n", tmp := none,
          backups := some [("1", "")], liveUnreadable := false,
          readDirFails := false, removeFails := [] } = .ok db ∧
      ∀ k, hmFind db k = hmFind [("a", 1), ("b", 2)] k := by
  have h := c4_amended_round_trip encNat decNat natFmt natParse 1
    [("a", 1), ("b", 2)] freshFS
    { live := some "a=1\nb=2\n", tmp := none, backups := some [("1", "")],
      liveUnreadable := false, readDirFails := false, removeFails := [] }
    (by decide) (by decide) (by decide) (by decide)
  exact h

/-! ### C7: line handling of the loader matches the spec's words -/

/-- C8 (confirmed): on a readable store file, `load_db` returns an error
if and only if some line with an '=' separator has a value fragment the
decoder rejects, and any such error is a DecodeError (serde error)
wrapping the decoder's message. -/
theorem c8_decode_error_iff {T : Type} (dec : String → Except String T)
    (st : FS) (c : String)
    (hl : st.live = some c) (hu : st.liveUnreadable = false) :
    ((∃ e, load_db dec st = .error e) ↔
      ∃ l ∈ rustLines c, ∃ kv, splitOnceEq l = some kv ∧
        ∃ m, dec (rustTrim kv.2) = .error m) ∧
    (∀ e, load_db dec st = .error e → ∃ m, e = .serdeError m) := by
  have hld : load_db dec st = loadLines dec (rustLines c) [] := by
    simp [load_db, readToString, hl, hu]
  rw [hld]
  exact loadLines_error_iff dec (rustLines c) []

/-- Witness for C8: a file whose second line's fragment is not a number
makes the load fail, via the right-to-left direction of the iff. -/
theorem c8_decode_error_iff_witness :
    ∃ e, load_db decNat
      { live := some "a=1\nb=x\n", tmp := none, backups := none,
        liveUnreadable := false, readDirFails := false, removeFails := [] }
      = .error e :=
  (c8_decode_error_iff decNat _ "a=1\nb=x\n" rfl rfl).1.mpr
    ⟨"b=x", by decide, ("b", "x"), by decide,
      "invalid number: x", by decide⟩

/-! ### C10: duplicate keys, last occurrence wins, all occurrences are
decoded -/

/-- C10 (confirmed): on a readable store file, a successful load binds
each key to the value decoded from the last line (in file order) whose
trimmed key equals it; and every '='-line's fragment is decoded, so an
undecodable fragment anywhere (even under a key that a later line
overwrites) fails the whole load. -/
theorem c10_last_wins_and_decodes_all {T : Type}
    (dec : String → Except String T) (st : FS) (c : String)
    (hl : st.live = some c) (hu : st.liveUnreadable = false) :
    (∀ db, load_db dec st = .ok db → ∀ k,
      hmFind db k =
        ((parsedPairs dec (rustLines c)).reverse.find?
          (fun p => p.1 == k)).map (·.2)) ∧
    (∀ l ∈ rustLines c, ∀ kv, splitOnceEq l = some kv →
      ∀ m, dec (rustTrim kv.2) = .error m →
        ∃ e, load_db dec st = .error e) := by
  have hld : load_db dec st = loadLines dec (rustLines c) [] := by
    simp [load_db, readToString, hl, hu]
  constructor
  · intro db hdb k
    rw [hld] at hdb
    by_cases hfail : ∃ l ∈ rustLines c, ∃ kv, splitOnceEq l = some kv ∧
        ∃ m, dec (rustTrim kv.2) = .error m
    · obtain ⟨e, he⟩ := (loadLines_error_iff dec (rustLines c) []).1.mpr hfail
      rw [he] at hdb
      cases hdb
    · push_neg at hfail
      have hok : ∀ l ∈ rustLines c, ∀ kv, splitOnceEq l = some kv →
          ∃ v, dec (rustTrim kv.2) = .ok v := by
        intro l hml kv hsp
        cases hd : dec (rustTrim kv.2) with
        | error m => exact absurd hd (hfail l hml kv hsp m)
        | ok v => exact ⟨v, rfl⟩
      rw [loadLines_ok dec _ hok []] at hdb
      cases hdb
      rw [List.append_nil]
      rfl
  · intro l hml kv hsp m hm
    rw [hld]
    exact (loadLines_error_iff dec (rustLines c) []).1.mpr
      ⟨l, hml, kv, hsp, m, hm⟩

/-- Witness for C10: "k=1\nk=2\n" loads with k bound to 2 (the last
line), and "k=x\nk=2\n" fails although the bad line's key is later
overwritten. -/
theorem c10_last_wins_and_decodes_all_witness :
    (hmFind [(("k" : String), (2 : Nat)), ("k", 1)] "k" = some 2) ∧
    (∃ e, load_db decNat
      { live := some "k=x\nk=2\n", tmp := none, backups := none,
        liveUnreadable := false, readDirFails := false, removeFails := [] }
      = .error e) := by
  constructor
  · have h := (c10_last_wins_and_decodes_all decNat
      { live := some "k=1\nk=2\n", tmp := none, backups := none,
        liveUnreadable := false, readDirFails := false, removeFails := [] }
      "k=1\nk=2\n" rfl rfl).1 [("k", 2), ("k", 1)] (by decide) "k"
    exact h.trans (by decide)
  · exact (c10_last_wins_and_decodes_all decNat _ "k=x\nk=2\n" rfl rfl).2
      "k=x" (by decide) ("k", "x") (by decide) "invalid number: x" (by decide)

/-! ### C1 machinery: behaviour of retention plus backup creation over a
run of saves -/

/-- Flag state under which every filesystem operation succeeds. -/
def CleanFlags (st : FS) : Prop :=
  st.liveUnreadable = false ∧ st.readDirFails = false ∧ st.removeFails = []

/-- The backups directory either does not exist yet (and no backups are
being tracked) or lists exactly the backups of the tracked timestamps,
in order. -/
def NamesAre {TS : Type} (fmtTs : TS → String) (st : FS) (us : List TS) :
    Prop :=
  (st.backups = none ∧ us = []) ∨
  ∃ es, st.backups = some es ∧ es.map Prod.fst = us.map fmtTs

/-- One save's effect on the tracked backup timestamps: prune to the
newest `MAX_BACKUPS`, then append the new one. -/
def shiftTS {TS : Type} (us : List TS) (t : TS) : List TS :=
  us.drop (us.length - MAX_BACKUPS) ++ [t]

theorem parseAll_map_fmt {TS : Type} (fmtTs : TS → String)
    (parseTs : String → Option TS)
    (hrt : ∀ t, parseTs (fmtTs t) = some t) :
    ∀ us : List TS, parseAll parseTs (us.map fmtTs) = some us := by
  intro us
  induction us with
  | nil => rfl
  | cons u us ih => simp [parseAll, hrt u, ih]

theorem fmtTs_inj {TS : Type} (fmtTs : TS → String)
    (parseTs : String → Option TS)
    (hrt : ∀ t, parseTs (fmtTs t) = some t)
    {a b : TS} (h : fmtTs a = fmtTs b) : a = b := by
  have := (hrt a).symm.trans ((congrArg parseTs h).trans (hrt b))
  exact Option.some.inj this

theorem sortTS_sorted_eq {TS : Type} [LinearOrder TS] :
    ∀ us : List TS, List.Sorted (· ≤ ·) us → sortTS us = us := by
  intro us
  induction us with
  | nil => intro _; rfl
  | cons u us ih =>
    intro h
    have : sortTS (u :: us) = insertSorted u (sortTS us) := rfl
    rw [this, ih h.of_cons]
    cases us with
    | nil => rfl
    | cons v vs =>
      rw [insertSorted,
        if_pos ((List.sorted_cons.mp h).1 v (List.mem_cons_self v vs))]

theorem removeBackups_single {TS : Type} (fmtTs : TS → String) (st : FS)
    (es : List (String × String)) (t : TS) (hb : st.backups = some es)
    (hany : es.any (fun p => p.1 == fmtTs t) = true)
    (hrf : st.removeFails = []) :
    removeBackups fmtTs [t] st =
      .ok { st with backups := some (es.filter (fun p => p.1 != fmtTs t)) } := by
  rw [removeBackups, hb]
  simp only [Option.getD_some, hrf, List.contains, List.elem_nil,
    Bool.not_false, hany, Bool.and_true, if_pos, removeBackups]

/-- A list of pairs whose name column matches `n :: rest`, with `n` not
occurring in `rest`, loses exactly its first element when filtered on
names different from `n`. -/
theorem filter_fst_neq {T : Type} :
    ∀ (es : List (String × T)) (n : String) (rest : List String),
      es.map Prod.fst = n :: rest → n ∉ rest →
      (es.filter (fun p => p.1 != n)).map Prod.fst = rest := by
  intro es n rest hmap hnot
  cases es with
  | nil => cases hmap
  | cons e es' =>
    rw [List.map_cons] at hmap
    obtain ⟨h1, h2⟩ := List.cons.inj hmap
    have hall : ∀ p ∈ es', (p.1 != n) = true := by
      intro p hp
      have hpmem : p.1 ∈ rest := h2 ▸ List.mem_map_of_mem Prod.fst hp
      simp only [bne_iff_ne, ne_eq]
      intro he
      exact hnot (he ▸ hpmem)
    rw [List.filter_cons, h1]
    simp only [bne_self_eq_false, Bool.false_eq_true, if_false]
    rw [List.filter_eq_self.mpr hall, h2]

/-- No directory entry is named after a timestamp outside the tracked
list. -/
theorem any_name_eq_false {TS : Type} (fmtTs : TS → String)
    (parseTs : String → Option TS)
    (hrt : ∀ t, parseTs (fmtTs t) = some t)
    (es : List (String × String)) (vs : List TS) (t : TS)
    (hes : es.map Prod.fst = vs.map fmtTs) (hnott : t ∉ vs) :
    es.any (fun p => p.1 == fmtTs t) = false := by
  rw [List.any_eq_false]
  intro p hp
  have hmem : p.1 ∈ vs.map fmtTs := hes ▸ List.mem_map_of_mem Prod.fst hp
  obtain ⟨v, hv, hveq⟩ := List.mem_map.mp hmem
  simp only [beq_iff_eq]
  intro he
  exact hnott ((fmtTs_inj fmtTs parseTs hrt (hveq.trans he)) ▸ hv)

/-- One `save_db` call's effect on the tracked backup timestamps: with a
clean state whose backups are exactly the (strictly ascending, at most
MAX_BACKUPS + 1 many) tracked timestamps, and a strictly newer `now`,
the save succeeds and the tracked timestamps shift: prune to the newest
MAX_BACKUPS, then append `now`. -/
theorem save_step {T TS : Type} [LinearOrder TS] (enc : T → String)
    (fmtTs : TS → String) (parseTs : String → Option TS)
    (hrt : ∀ t, parseTs (fmtTs t) = some t)
    (M : List (String × T)) (st : FS) (us : List TS) (t : TS)
    (hnames : NamesAre fmtTs st us)
    (hsort : List.Sorted (· < ·) us) (hlen : us.length ≤ MAX_BACKUPS + 1)
    (hclean : CleanFlags st) (hlt : ∀ u ∈ us, u < t) :
    ∃ st', save_db enc fmtTs parseTs t M st = .ok st' ∧
      NamesAre fmtTs st' (shiftTS us t) ∧ CleanFlags st' := by
  obtain ⟨hlu, hrd, hrf⟩ := hclean
  rcases hnames with ⟨hb, rfl⟩ | ⟨es, hb, hes⟩
  · -- backups directory absent (and no timestamps tracked)
    have hsv : save_db enc fmtTs parseTs t M st
        = save_db_write enc fmtTs t M st := by
      rw [save_db, show delete_old_backups fmtTs parseTs st = .ok st by
        rw [delete_old_backups, hb]]
    rw [hsv, save_db_write_ok enc fmtTs t M st hlu]
    refine ⟨_, rfl, Or.inr ⟨_, rfl, ?_⟩, rfl, hrd, hrf⟩
    rw [hb]
    simp [backupInsert, shiftTS]
  · have hparse : parseAll parseTs (es.map Prod.fst) = some us := by
      rw [hes]; exact parseAll_map_fmt fmtTs parseTs hrt us
    have hsorteq : sortTS us = us :=
      sortTS_sorted_eq us (hsort.imp (fun h => le_of_lt h))
    have hnott : t ∉ us := fun hm => lt_irrefl t (hlt t hm)
    by_cases hle : us.length ≤ MAX_BACKUPS
    · -- within the cap: retention deletes nothing
      have hpr : delete_old_backups fmtTs parseTs st = .ok st := by
        simp only [delete_old_backups, hb, hrd, Bool.false_eq_true,
          if_false, hparse, hsorteq, Nat.sub_eq_zero_of_le hle,
          List.take_zero]
        rfl
      have hsv : save_db enc fmtTs parseTs t M st
          = save_db_write enc fmtTs t M st := by
        rw [save_db, hpr]
      rw [hsv, save_db_write_ok enc fmtTs t M st hlu]
      have hanyf := any_name_eq_false fmtTs parseTs hrt es us t hes hnott
      refine ⟨_, rfl, Or.inr ⟨_, rfl, ?_⟩, rfl, hrd, hrf⟩
      rw [hb]
      simp [backupInsert, hanyf, hes, shiftTS, Nat.sub_eq_zero_of_le hle]
    · -- over the cap: us has MAX_BACKUPS + 1 entries, the oldest goes
      have hlen11 : us.length = MAX_BACKUPS + 1 :=
        le_antisymm hlen (Nat.lt_of_not_le hle)
      cases us with
      | nil => cases hlen11
      | cons u0 us' =>
        have hlen' : us'.length = MAX_BACKUPS := by
          rw [List.length_cons] at hlen11
          exact Nat.succ_injective hlen11
        have htake1 : (u0 :: us').length - MAX_BACKUPS = 1 := by
          rw [List.length_cons, hlen']
          exact Nat.add_sub_cancel_left MAX_BACKUPS 1
        rw [List.map_cons] at hes
        have hu0not : u0 ∉ us' := fun hm =>
          lt_irrefl u0 ((List.sorted_cons.mp hsort).1 u0 hm)
        have hfmtnot : fmtTs u0 ∉ us'.map fmtTs := by
          intro hm
          obtain ⟨v, hv, hveq⟩ := List.mem_map.mp hm
          exact hu0not ((fmtTs_inj fmtTs parseTs hrt hveq) ▸ hv)
        have hany : es.any (fun p => p.1 == fmtTs u0) = true := by
          rw [List.any_eq_true]
          have hmem : fmtTs u0 ∈ es.map Prod.fst := by
            rw [hes]; exact List.mem_cons_self _ _
          obtain ⟨p, hp, hpe⟩ := List.mem_map.mp hmem
          exact ⟨p, hp, by rw [beq_iff_eq]; exact hpe⟩
        have hfilter := filter_fst_neq es (fmtTs u0) (us'.map fmtTs) hes
          hfmtnot
        have hpr : delete_old_backups fmtTs parseTs st = .ok { st with backups := some (es.filter (fun p => p.1 != fmtTs u0)) } := by
          have htakelist : (u0 :: us').take ((u0 :: us').length - MAX_BACKUPS)
              = [u0] := by rw [htake1]; rfl
          simp only [delete_old_backups, hb, hrd, Bool.false_eq_true,
            if_false, hparse, hsorteq, htakelist]
          exact (removeBackups_single fmtTs st es u0 hb hany hrf).trans
            (by rw [hrd])
        have hsv : save_db enc fmtTs parseTs t M st = save_db_write enc fmtTs t M { st with backups := some (es.filter (fun p => p.1 != fmtTs u0)) } := by
          rw [save_db, hpr]
        rw [hsv, save_db_write_ok enc fmtTs t M { st with backups := some (es.filter (fun p => p.1 != fmtTs u0)) } hlu]
        have hnott' : t ∉ us' := fun hm =>
          lt_irrefl t (hlt t (List.mem_cons_of_mem u0 hm))
        have hanyf := any_name_eq_false fmtTs parseTs hrt
          (es.filter (fun p => p.1 != fmtTs u0)) us' t hfilter hnott'
        refine ⟨_, rfl, Or.inr ⟨_, rfl, ?_⟩, rfl, hrd, hrf⟩
        have hdrop : (u0 :: us').drop ((u0 :: us').length - MAX_BACKUPS)
            = us' := by rw [htake1]; rfl
        have hdrop2 : List.drop (us'.length + 1 - MAX_BACKUPS)
            (fmtTs u0 :: List.map fmtTs us') = List.map fmtTs us' := by
          rw [show us'.length + 1 - MAX_BACKUPS = 1 by
            rw [hlen']; exact Nat.add_sub_cancel_left MAX_BACKUPS 1]
          rfl
        simp [backupInsert, hanyf, hfilter, shiftTS, hdrop, hdrop2]

/-- Invariant carried through a run of saves: the tracked timestamps
evolve by `shiftTS` at every step. -/
theorem saveAll_inv {T TS : Type} [LinearOrder TS] (enc : T → String)
    (fmtTs : TS → String) (parseTs : String → Option TS)
    (hrt : ∀ t, parseTs (fmtTs t) = some t) (M : List (String × T)) :
    ∀ (ts : List TS) (st : FS) (us : List TS),
      NamesAre fmtTs st us → List.Sorted (· < ·) (us ++ ts) →
      us.length ≤ MAX_BACKUPS + 1 → CleanFlags st →
      ∃ st', saveAll enc fmtTs parseTs M ts st = .ok st' ∧
        NamesAre fmtTs st' (ts.foldl shiftTS us) ∧ CleanFlags st' := by
  intro ts
  induction ts with
  | nil =>
    intro st us hn _ _ hc
    exact ⟨st, rfl, hn, hc⟩
  | cons t ts ih =>
    intro st us hn hs hl hc
    have hparts := List.pairwise_append.mp hs
    have hlt : ∀ u ∈ us, u < t :=
      fun u hu => hparts.2.2 u hu t (List.mem_cons_self t ts)
    obtain ⟨st₁, hsv, hn₁, hc₁⟩ :=
      save_step enc fmtTs parseTs hrt M st us t hn hparts.1 hl hc hlt
    have hs' : List.Sorted (· < ·) (shiftTS us t ++ ts) := by
      have hsub : List.Sublist (shiftTS us t ++ ts) (us ++ t :: ts) := by
        rw [shiftTS, List.append_assoc]
        exact (List.drop_sublist _ us).append_right _
      exact hs.sublist hsub
    have hl' : (shiftTS us t).length ≤ MAX_BACKUPS + 1 := by
      rw [shiftTS, List.length_append, List.length_drop,
        List.length_singleton, show MAX_BACKUPS = 10 from rfl]
      omega
    obtain ⟨st₂, hsv₂, hn₂, hc₂⟩ := ih st₁ (shiftTS us t) hn₁ hs' hl' hc₁
    refine ⟨st₂, ?_, hn₂, hc₂⟩
    have hstep : saveAll enc fmtTs parseTs M (t :: ts) st
        = saveAll enc fmtTs parseTs M ts st₁ := by
      rw [saveAll, hsv]
    rw [hstep, hsv₂]

/-- Iterating `shiftTS` from an empty backup set keeps exactly the
newest `MAX_BACKUPS + 1` timestamps. -/
theorem foldl_shiftTS_drop {TS : Type} :
    ∀ ts : List TS,
      ts.foldl shiftTS [] = ts.drop (ts.length - (MAX_BACKUPS + 1)) := by
  intro ts
  induction ts using List.reverseRecOn with
  | nil => rfl
  | append_singleton ts t ih =>
    rw [List.foldl_append, List.foldl_cons, List.foldl_nil, ih, shiftTS,
      List.length_drop, List.drop_drop, List.length_append,
      List.length_singleton]
    rw [List.drop_append_of_le_length
      (by rw [show MAX_BACKUPS = 10 from rfl]; omega)]
    have harith : ts.length - (MAX_BACKUPS + 1)
        + (ts.length - (ts.length - (MAX_BACKUPS + 1)) - MAX_BACKUPS)
        = ts.length + 1 - (MAX_BACKUPS + 1) := by
      rw [show MAX_BACKUPS = 10 from rfl]
      omega
    rw [harith]

/-! ### C1: how many backups survive a run of saves

`delete_old_backups` prunes to MAX_BACKUPS files BEFORE the new backup
is created in the same `save_db` call, so a run of more than ten saves
stabilizes at MAX_BACKUPS + 1 = 11 backup files, not 10. -/

/-- C1 counterexample: eleven consecutive successful saves to a fresh
location leave eleven backup files, violating the claimed cap of
MAX_BACKUPS (10). -/
theorem c1_counterexample :
    (match saveAll encNat natFmt natParse [("a", 1)]
        [1, 2, 3, 4, 5, 6, 7, 8, 9, 10, 11] freshFS with
     | .ok st' => backupNames st'
     | _ => none) =
      some ["1", "2", "3", "4", "5", "6", "7", "8", "9", "10", "11"] ∧
    ¬ (["1", "2", "3", "4", "5", "6", "7", "8", "9", "10", "11"].length
        ≤ MAX_BACKUPS) :=
  ⟨by decide, by decide⟩

/-- C1 amended (proved): for every nonempty run of consecutive
successful saves at strictly increasing timestamps on a fresh location,
the backups directory afterwards holds exactly the backups of the
newest `min N (MAX_BACKUPS + 1)` timestamps; in particular for N > 10
exactly MAX_BACKUPS + 1 = 11 backups remain, the 11 most recent by
timestamp (pruning to 10 runs before the new backup is created in the
same save). -/
theorem c1_amended_eleven_most_recent {T TS : Type} [LinearOrder TS]
    (enc : T → String) (fmtTs : TS → String) (parseTs : String → Option TS)
    (hrt : ∀ t, parseTs (fmtTs t) = some t) (M : List (String × T))
    (ts : List TS) (hsort : List.Sorted (· < ·) ts) (hne : ts ≠ []) :
    ∃ st', saveAll enc fmtTs parseTs M ts freshFS = .ok st' ∧
      backupNames st' =
        some ((ts.map fmtTs).drop (ts.length - (MAX_BACKUPS + 1))) := by
  obtain ⟨st', hsv, hn, -⟩ := saveAll_inv enc fmtTs parseTs hrt M ts freshFS
    [] (Or.inl ⟨rfl, rfl⟩) (by simpa using hsort)
    (by simp) ⟨rfl, rfl, rfl⟩
  refine ⟨st', hsv, ?_⟩
  rw [foldl_shiftTS_drop] at hn
  rcases hn with ⟨-, hempty⟩ | ⟨es, hbs, hmap⟩
  · exfalso
    have hlen0 : ts.length ≠ 0 := fun hh => hne (List.length_eq_zero.mp hh)
    have := congrArg List.length hempty
    rw [List.length_drop, List.length_nil,
      show MAX_BACKUPS = 10 from rfl] at this
    omega
  · rw [backupNames, hbs, Option.map_some', hmap]
    rw [show (ts.drop (ts.length - (MAX_BACKUPS + 1))).map fmtTs
      = (ts.map fmtTs).drop (ts.length - (MAX_BACKUPS + 1)) from
      by rw [List.map_drop]]

/-- Witness for the amended C1: twelve saves at timestamps 1..12 with a
round-tripping timestamp codec leave the backups of timestamps 2..12. -/
theorem c1_amended_eleven_most_recent_witness :
    ∃ st', saveAll encNat unaryFmt unaryParse [("a", 1)]
        (List.range' 1 12) freshFS = .ok st' ∧
      backupNames st' =
        some (((List.range' 1 12).map unaryFmt).drop
          ((List.range' 1 12).length - (MAX_BACKUPS + 1))) :=
  c1_amended_eleven_most_recent encNat unaryFmt unaryParse
    unaryParse_unaryFmt [("a", 1)] (List.range' 1 12) (by decide) (by decide)

/-! ### C2: backup filenames that do not parse as timestamps

The claim says they are silently ignored.  The code (line 106) calls
`DateTime::parse_from_rfc3339(...).unwrap()` on every directory entry:
a filename that does not parse makes retention (and the enclosing save)
panic. -/

/-- C2 counterexample: a backups directory containing a file named
"garbage" (which does not parse as a timestamp) makes
`delete_old_backups` — and `save_db`, which invokes it — panic instead
of silently ignoring the entry. -/
theorem c2_counterexample :
    natParse "garbage" = none ∧
    delete_old_backups natFmt natParse
      { live := none, tmp := none, backups := some [("garbage", "")],
        liveUnreadable := false, readDirFails := false, removeFails := [] }
      = .panic
      { live := none, tmp := none, backups := some [("garbage", "")],
        liveUnreadable := false, readDirFails := false,
        removeFails := [] } ∧
    save_db encNat natFmt natParse 1 [("a", 1)]
      { live := none, tmp := none, backups := some [("garbage", "")],
        liveUnreadable := false, readDirFails := false, removeFails := [] }
      = .panic
      { live := none, tmp := none, backups := some [("garbage", "")],
        liveUnreadable := false, readDirFails := false,
        removeFails := [] } :=
  ⟨by decide, by decide, by decide⟩

theorem parseAll_eq_none {TS : Type} (parseTs : String → Option TS) :
    ∀ ns : List String,
      parseAll parseTs ns = none ↔ ∃ n ∈ ns, parseTs n = none := by
  intro ns
  induction ns with
  | nil => simp [parseAll]
  | cons n ns ih =>
    cases hp : parseTs n with
    | none =>
      simp only [parseAll, hp]
      constructor
      · intro _; exact ⟨n, List.mem_cons_self n ns, hp⟩
      · intro _; trivial
    | some t =>
      simp only [parseAll, hp, Option.map_eq_none', ih]
      constructor
      · intro ⟨m, hm, hmp⟩; exact ⟨m, List.mem_cons_of_mem n hm, hmp⟩
      · rintro ⟨m, hm, hmp⟩
        rcases List.mem_cons.mp hm with rfl | hm'
        · rw [hp] at hmp; cases hmp
        · exact ⟨m, hm', hmp⟩

/-- C2 amended (proved): during retention, a backups-directory entry
whose filename does not parse as a timestamp causes a panic (the parse
result is unwrapped); it is neither counted, nor deleted, nor silently
ignored — the whole listing pass dies before any deletion. -/
theorem c2_amended_parse_failure_panics {TS : Type} [LinearOrder TS]
    (fmtTs : TS → String) (parseTs : String → Option TS) (st : FS)
    (entries : List (String × String)) (hb : st.backups = some entries)
    (hrd : st.readDirFails = false)
    (hex : ∃ n ∈ entries.map Prod.fst, parseTs n = none) :
    delete_old_backups fmtTs parseTs st = .panic st := by
  have hpn : parseAll parseTs (entries.map Prod.fst) = none :=
    (parseAll_eq_none parseTs _).mpr hex
  simp [delete_old_backups, hb, hrd, hpn]

/-- Witness for the amended C2 at a concrete state. -/
theorem c2_amended_parse_failure_panics_witness :
    delete_old_backups natFmt natParse
      { live := some "a=1\n", tmp := none,
        backups := some [("1", ""), ("not-a-timestamp", "")],
        liveUnreadable := false, readDirFails := false, removeFails := [] }
      = .panic
      { live := some "a=1\n", tmp := none,
        backups := some [("1", ""), ("not-a-timestamp", "")],
        liveUnreadable := false, readDirFails := false,
        removeFails := [] } :=
  c2_amended_parse_failure_panics natFmt natParse _
    [("1", ""), ("not-a-timestamp", "")] rfl rfl
    ⟨"not-a-timestamp", by decide, by decide⟩

/-! ### C9: retention runs first; its failures abort the save before any
live-file or temp-file mutation -/

/-- C9 (confirmed): retention is a no-op success when the backups
directory is missing; a directory-listing failure or a backup-removal
failure surfaces as an IOError from `save_db` with the live file and
temp file untouched (retention runs before any mutation). -/
theorem c9_retention_failures {T TS : Type} [LinearOrder TS]
    (enc : T → String) (fmtTs : TS → String) (parseTs : String → Option TS)
    (now : TS) (M : List (String × T)) (st : FS) :
    (st.backups = none → delete_old_backups fmtTs parseTs st = .ok st) ∧
    (∀ entries, st.backups = some entries → st.readDirFails = true →
      save_db enc fmtTs parseTs now M st =
        .err (.ioError "read_dir failed") st) ∧
    (∀ msg s', delete_old_backups fmtTs parseTs st = .err msg s' →
      save_db enc fmtTs parseTs now M st = .err (.ioError msg) s' ∧
      s'.live = st.live ∧ s'.tmp = st.tmp) := by
  refine ⟨?_, ?_, ?_⟩
  · intro hb
    rw [delete_old_backups, hb]
  · intro entries hb hrd
    have hpr : delete_old_backups fmtTs parseTs st =
        .err "read_dir failed" st := by
      rw [delete_old_backups, hb]
      simp [hrd]
    rw [save_db, hpr]
  · intro msg s' hpr
    have hpres := delete_old_backups_preserves fmtTs parseTs st
    rw [hpr] at hpres
    exact ⟨by rw [save_db, hpr], hpres.1, hpres.2.1⟩

/-- Witness for C9: the three conclusions at concrete states — missing
backups directory, failing directory listing, failing removal of the
oldest of eleven backups. -/
theorem c9_retention_failures_witness :
    delete_old_backups natFmt natParse freshFS = .ok freshFS ∧
    save_db encNat natFmt natParse 12 [("a", 1)]
      { live := none, tmp := none, backups := some [],
        liveUnreadable := false, readDirFails := true, removeFails := [] } =
      .err (.ioError "read_dir failed")
      { live := none, tmp := none, backups := some [],
        liveUnreadable := false, readDirFails := true,
        removeFails := [] } ∧
    (save_db encNat natFmt natParse 12 [("a", 1)]
        { live := some "a=1\n", tmp := none,
          backups := some [("1", ""), ("2", ""), ("3", ""), ("4", ""),
            ("5", ""), ("6", ""), ("7", ""), ("8", ""), ("9", ""),
            ("10", ""), ("11", "")],
          liveUnreadable := false, readDirFails := false,
          removeFails := ["1"] } =
        .err (.ioError "remove_file failed")
        { live := some "a=1\n", tmp := none,
          backups := some [("1", ""), ("2", ""), ("3", ""), ("4", ""),
            ("5", ""), ("6", ""), ("7", ""), ("8", ""), ("9", ""),
            ("10", ""), ("11", "")],
          liveUnreadable := false, readDirFails := false,
          removeFails := ["1"] } ∧
      (some "a=1\n" : Option String) = some "a=1\n" ∧
      (none : Option String) = none) := by
  refine ⟨(c9_retention_failures encNat natFmt natParse 12 [("a", 1)]
      freshFS).1 rfl,
    (c9_retention_failures encNat natFmt natParse 12 [("a", 1)] _).2.1
      [] rfl rfl, ?_⟩
  exact (c9_retention_failures encNat natFmt natParse 12 [("a", 1)] _).2.2
    "remove_file failed" _ (by decide)

end MemoryDB
